import Mathlib

/-!
Verification of the BSP / WAD level engine of the `rune` repository.

The Rust source is shallowly embedded here:

* `i16` values are modelled as `Int`; where the Rust code performs `i16`
  arithmetic that can overflow, the result is wrapped explicitly with
  `wrap16` (two's-complement wraparound, the release-build semantics of
  Rust integer overflow).  `u16` raw fields are modelled as `Nat`.
* `usize` casts of `i16` values sign-extend: a negative `i16` becomes a
  value of at least `2^64 - 32768`, far beyond any array length, so any
  subsequent indexing fails.
* Fallible operations (`unwrap` on a missing value, out-of-bounds
  indexing, unbounded recursion over an index graph) are modelled with
  `Option`: `none` means the Rust program panics or diverges.
* The BSP tree type `Node` from `wad.rs` and the one from `level.rs`
  have identical fields; a single Lean type `Node` embeds both, and the
  three descent functions (`Node::find` of wad.rs, which is identical to
  `Node::_find` of level.rs, and `Node::find_partial` of level.rs) are
  embedded separately.
-/

/-- Two's-complement wraparound into the signed 16-bit range
`[-32768, 32767]`; models Rust release-mode `i16` overflow. -/
def wrap16 (n : Int) : Int := (n + 32768) % 65536 - 32768

/-- The signed 16-bit range, the type of every coordinate and delta
decoded by `WadFile::get_i16`. -/
def isI16 (n : Int) : Prop := -32768 ≤ n ∧ n ≤ 32767

instance (n : Int) : Decidable (isI16 n) := by unfold isI16; infer_instance

/-- `wad.rs` `struct BBox` (fields `top`, `left`, `width`, `height`). -/
structure BBox where
  top : Int
  left : Int
  width : Int
  height : Int
deriving DecidableEq, Repr

/-- `wad.rs` `struct SubSector` (`segment_count`, `first_segment`, both
`usize` after decode). -/
structure SubSector where
  segment_count : Nat
  first_segment : Nat
deriving DecidableEq, Repr

/-- `wad.rs` `enum ChildIdx`: a raw child pointer, either a node index or
a subsector index (both `i16`). -/
inductive ChildIdx where
  | node : Int → ChildIdx
  | subsector : Int → ChildIdx
deriving DecidableEq, Repr

/-- `wad.rs` `struct MapNode`: one raw decoded NODES-lump record. -/
structure MapNode where
  partition_x : Int
  partition_y : Int
  delta_x : Int
  delta_y : Int
  right_bbox : BBox
  left_bbox : BBox
  right_child : ChildIdx
  left_child : ChildIdx
  id : Nat
deriving DecidableEq, Repr

/-- The assembled BSP tree node (`wad.rs` `struct Node` / `level.rs`
`struct Node`, which have the same fields).  A child
(`Option<Child>` in Rust, with `Child = NODE(node) | SUBSECTOR(s)`) is
modelled as `Option (Node ⊕ SubSector)`; constructor argument order is
`partition_x partition_y delta_x delta_y right_bbox left_bbox
right_child left_child`. -/
inductive Node where
  | mk : Int → Int → Int → Int → BBox → BBox →
         Option (Node ⊕ SubSector) → Option (Node ⊕ SubSector) → Node

/-- The `right_child` field of a `Node`. -/
def Node.rightChild : Node → Option (Node ⊕ SubSector)
  | .mk _ _ _ _ _ _ rc _ => rc

/-- The `left_child` field of a `Node`. -/
def Node.leftChild : Node → Option (Node ⊕ SubSector)
  | .mk _ _ _ _ _ _ _ lc => lc

/-- `Node::is_point_behind` (identical in `wad.rs` lines 170-190 and
`level.rs` lines 150-170), with the node's four partition fields passed
explicitly.  The `delta_x == 0` and `delta_y == 0` branches only compare
`i16` values; the general branch performs `i16` additions and
subtractions (wrapped) and then multiplies after promotion to `i32`
(exact, since the products fit in 32 bits). -/
def isPointBehind (px py dx dy x y : Int) : Bool :=
  if dx = 0 then
    if x ≤ px then decide (0 < dy) else decide (dy < 0)
  else if dy = 0 then
    if y ≤ py then decide (dx < 0) else decide (0 < dx)
  else
    let x2 := wrap16 (px + dx)
    let y2 := wrap16 (py + dy)
    decide (wrap16 (y2 - py) * wrap16 (x - px) < wrap16 (x2 - px) * wrap16 (y - py))

/-- `Node::find` (`wad.rs` lines 158-168; textually identical to
`Node::_find`, `level.rs` lines 138-148): full point-location descent.
`none` models the panic of `.unwrap()` on a missing child. -/
def Node.find : Node → Int → Int → Option SubSector
  | .mk px py dx dy _ _ rc lc, x, y =>
    if isPointBehind px py dx dy x y then
      match lc with
      | none => none
      | some (Sum.inl n) => n.find x y
      | some (Sum.inr s) => some s
    else
      match rc with
      | none => none
      | some (Sum.inl n) => n.find x y
      | some (Sum.inr s) => some s

/-- The wrapping decrement of a `u32` depth counter: `levels - 1` in
Rust `u32` arithmetic (release semantics), so `0 - 1 = 2^32 - 1`. -/
def u32dec (levels : Nat) : Nat := (levels + 4294967295) % 4294967296

/-- `Node::find_partial` (`level.rs` lines 124-137).  Note the negated
test: the LEFT child is taken when `is_point_behind` is FALSE — the
opposite convention from `Node::find` / `Node::_find`.  The child is
unwrapped (panic = `none` when missing) before the `levels == 1` early
return; recursion decrements `levels` with `u32` wraparound. -/
def Node.findLevels : Node → Int → Int → Nat → Option (Node ⊕ SubSector)
  | .mk px py dx dy _ _ rc lc, x, y, levels =>
    if isPointBehind px py dx dy x y then
      match rc with
      | none => none
      | some c =>
        if levels = 1 then some c
        else
          match c with
          | Sum.inl n => n.findLevels x y (u32dec levels)
          | Sum.inr _ => some c
    else
      match lc with
      | none => none
      | some c =>
        if levels = 1 then some c
        else
          match c with
          | Sum.inl n => n.findLevels x y (u32dec levels)
          | Sum.inr _ => some c

/-- Swap the two children of every node of a tree (the relation between
the raw tree built by `Node::new` and the tree rebuilt by `Level::new`,
and between the descents of `find` and `find_partial`). -/
def Node.mirror : Node → Node
  | .mk px py dx dy rb lb rc lc =>
    .mk px py dx dy rb lb
      (match lc with
       | some (Sum.inl n) => some (Sum.inl n.mirror)
       | c => c)
      (match rc with
       | some (Sum.inl n) => some (Sum.inl n.mirror)
       | c => c)

/-- Number of internal-node levels of a tree (a tree whose children are
all leaves has height 1). -/
def Node.height : Node → Nat
  | .mk _ _ _ _ _ _ rc lc =>
    1 + max
      (match lc with
       | some (Sum.inl n) => n.height
       | _ => 0)
      (match rc with
       | some (Sum.inl n) => n.height
       | _ => 0)

/-- Both children of every node are populated (`Some`), recursively: the
invariant established by `Node::new` that makes every `.unwrap()` in the
descent functions safe. -/
def Node.wellFormed : Node → Bool
  | .mk _ _ _ _ _ _ rc lc =>
    (match lc with
     | none => false
     | some (Sum.inl n) => n.wellFormed
     | some (Sum.inr _) => true)
    && (match rc with
        | none => false
        | some (Sum.inl n) => n.wellFormed
        | some (Sum.inr _) => true)

/-- All subsector leaves of a tree. -/
def Node.leavesOf : Node → List SubSector
  | .mk _ _ _ _ _ _ rc lc =>
    (match lc with
     | some (Sum.inl n) => n.leavesOf
     | some (Sum.inr s) => [s]
     | none => [])
    ++ (match rc with
        | some (Sum.inl n) => n.leavesOf
        | some (Sum.inr s) => [s]
        | none => [])

/-- Cast of a `u16` value (`Nat`, assumed `< 65536`) to `i16` (Rust
`val as i16`): two's-complement reinterpretation. -/
def i16OfU16 (v : Nat) : Int := if v < 32768 then (v : Int) else (v : Int) - 65536

/-- `WadFile::get_child` (`wad.rs` lines 227-238) applied to the decoded
`u16` tag: bit 15 clear gives a node index, `0xFFFF` is special-cased to
subsector 0, any other value with bit 15 set has the bit cleared by the
xor and becomes a subsector index. -/
def getChild (v : Nat) : ChildIdx :=
  if v &&& 32768 = 0 then ChildIdx.node (i16OfU16 v)
  else if v = 65535 then ChildIdx.subsector 0
  else ChildIdx.subsector (i16OfU16 (v ^^^ 32768))

/-- Cast of a decoded `i16` field to `usize` (Rust
`WadFile::get_i16(..) as usize`, used for the linedef sidedef indices):
sign-extension, so a raw `u16` value of at least 32768 becomes a value
of at least `2^64 - 32768`. -/
def i16AsUsize (v : Nat) : Nat :=
  if v < 32768 then v else 18446744073709551616 - (65536 - v)

/-- Result of one assembly step in `Level::new`: either a value or the
fatal failure (panic) of the whole map assembly. -/
inductive Assembled (α : Type) where
  | ok : α → Assembled α
  | fatal : Assembled α
deriving DecidableEq, Repr

/-- The sidedef resolution performed for each side of each linedef in
`Level::new` (`level.rs` lines 218-227): a stored index of at least
65535 yields no sidedef; otherwise the sidedef array is indexed, and an
out-of-bounds index panics (fatal). The sidedef contents are irrelevant
here, so a sidedef is represented by an arbitrary type. -/
def resolveSidedef {α : Type} (sidedefs : List α) (idx : Nat) : Assembled (Option α) :=
  if 65535 ≤ idx then Assembled.ok none
  else
    match sidedefs.get? idx with
    | some sd => Assembled.ok (some sd)
    | none => Assembled.fatal

/-- Indexing a list with an `i16` value cast to `usize` (Rust
`v.get(i as usize)` / `v[i as usize]`): a negative index sign-extends to
at least `2^64 - 32768`, beyond any list length, so it always fails. -/
def listGetI16 {α : Type} (l : List α) (i : Int) : Option α :=
  if i < 0 then none else l.get? i.toNat

/-- `Node::new` (`wad.rs` lines 115-156): recursive construction of the
owned tree from the raw records.  The Rust recursion is bounded only by
the child-index graph, so it is embedded with explicit fuel: `none`
models a panic (bad index) or divergence (cyclic references / exhausted
fuel).  Note the constructor places the resolved left child in the
`left_child` field and the resolved right child in the `right_child`
field (no swap here, unlike the rebuild in `Level::new`). -/
def nodeNew : Nat → MapNode → List MapNode → List SubSector → Option Node
  | 0, _, _, _ => none
  | Nat.succ fuel, n, ms, ss =>
    let lc? : Option (Node ⊕ SubSector) :=
      match n.left_child with
      | ChildIdx.node i =>
        match listGetI16 ms i with
        | none => none
        | some m => (nodeNew fuel m ms ss).map Sum.inl
      | ChildIdx.subsector i => (listGetI16 ss i).map Sum.inr
    let rc? : Option (Node ⊕ SubSector) :=
      match n.right_child with
      | ChildIdx.node i =>
        match listGetI16 ms i with
        | none => none
        | some m => (nodeNew fuel m ms ss).map Sum.inl
      | ChildIdx.subsector i => (listGetI16 ss i).map Sum.inr
    match lc?, rc? with
    | some lc, some rc =>
      some (Node.mk n.partition_x n.partition_y n.delta_x n.delta_y
            n.right_bbox n.left_bbox (some rc) (some lc))
    | _, _ => none

/-- The root construction of `WadFile::load_from` (`wad.rs` lines
444-449): the last NODES record is popped as the root and the tree is
built over the remaining records.  Fuel `ms.length` is exactly the
depth of the longest acyclic reference chain, so the build succeeds
precisely when the Rust recursion terminates without a bad index. -/
def wadRoot (ms : List MapNode) (ss : List SubSector) : Option Node :=
  match ms.getLast? with
  | none => none
  | some root => nodeNew ms.length root ms.dropLast ss

/-- Child resolution of the node rebuild in `Level::new` (`level.rs`
lines 264-275): a subsector index selects the assembled subsector at
the same position; a node index is looked up among the nodes already
rebuilt (the table holds the nodes for raw records 0..k-1 when record k
is processed, matching the HashMap insertions keyed by list position).
A missing entry or negative index panics (`none`). -/
def resolveChild (tbl : List Node) (ss : List SubSector) :
    ChildIdx → Option (Node ⊕ SubSector)
  | ChildIdx.subsector i => (listGetI16 ss i).map Sum.inr
  | ChildIdx.node i => (listGetI16 tbl i).map Sum.inl

/-- The node-rebuild loop of `Level::new` (`level.rs` lines 262-287),
processing the raw records in file order.  The constructed node stores
the resolved LEFT raw child in its `right_child` field and the resolved
RIGHT raw child in its `left_child` field, exactly as the source does
(`right_child: left, left_child: right`). -/
def rebuildGo (ss : List SubSector) : List Node → List MapNode → Option (List Node)
  | tbl, [] => some tbl
  | tbl, m :: rest =>
    match resolveChild tbl ss m.left_child, resolveChild tbl ss m.right_child with
    | some l, some r =>
      rebuildGo ss
        (tbl ++ [Node.mk m.partition_x m.partition_y m.delta_x m.delta_y
                 m.right_bbox m.left_bbox (some l) (some r)]) rest
    | _, _ => none

/-- The full node rebuild of `Level::new`, starting from an empty table. -/
def rebuildNodes (ss : List SubSector) (ms : List MapNode) : Option (List Node) :=
  rebuildGo ss [] ms

/-- The root of the rebuilt tree (`level.rs` line 288: the node keyed by
`nodes.len() - 1`). -/
def levelRoot (ss : List SubSector) (ms : List MapNode) : Option Node :=
  (rebuildNodes ss ms).bind (fun tbl => tbl.get? (tbl.length - 1))

/-- The node-or-subsector whose bounding boxes `draw_bsp_search`
(`renderer.rs` lines 339-370) draws for a given depth: depth 0 is
special-cased by the caller to the root itself, and only a positive
depth is ever passed on to `find_partial`. -/
def bspSearchTarget (t : Node) (x y : Int) (depth : Nat) : Option (Node ⊕ SubSector) :=
  if depth = 0 then some (Sum.inl t) else t.findLevels x y depth

/-- Tail of `Renderer::is_seg_visible` (`renderer.rs` lines 197-215):
the second endpoint's rotation and clipping, returning the final angle
pair.  The `f32` angle arithmetic of the source is idealized as exact
real arithmetic; each normalization is the source's one-shot adjustment
(a single conditional addition or subtraction of `2π`), not a true
modulus. -/
noncomputable def segVisibleTail (theta a2 a1final : ℝ) : Option (ℝ × ℝ) :=
  let r2a := a2 - theta
  let r2b :=
    if r2a < 0 then r2a + Real.pi * 2
    else if Real.pi * 2 < r2a then r2a - Real.pi * 2 else r2a
  let r2c := Real.pi / 4 - r2b
  let r2 :=
    if r2c < 0 then r2c + Real.pi * 2
    else if Real.pi * 2 < r2c then r2c - Real.pi * 2 else r2c
  if Real.pi / 2 < r2 then some (a1final, theta - Real.pi / 4)
  else some (a1final, a2)

/-- `Renderer::is_seg_visible` (`renderer.rs` lines 165-216) from the
point where the two endpoint bearings are known: `theta` is the viewer
angle and `a1`, `a2` are the bearings that `angle_to_vertex` computed
for the two endpoints (always in `[0, 2π)`).  The `atan2`-based bearing
computation itself is not modelled; the bearings are taken as real
inputs.  `none` is the "not visible" result. -/
noncomputable def segVisibleCore (theta a1 a2 : ℝ) : Option (ℝ × ℝ) :=
  if a1 < a2 then none
  else
    let angleDiff := a1 - a2
    if Real.pi ≤ angleDiff then none
    else
      let r1a := a1 - theta + Real.pi / 4
      let r1 :=
        if r1a < 0 then r1a + Real.pi * 2
        else if Real.pi * 2 < r1a then r1a - Real.pi * 2 else r1a
      if Real.pi / 2 < r1 then
        if angleDiff ≤ r1 - Real.pi / 2 then none
        else segVisibleTail theta a2 (theta + Real.pi / 4)
      else segVisibleTail theta a2 a1

/-- Circular distance between two angles of `[0, 2π)`: the length of the
shorter arc between them. -/
noncomputable def circDist (a b : ℝ) : ℝ := min |a - b| (2 * Real.pi - |a - b|)

/-- A trivial bounding box for concrete examples. -/
def bb0 : BBox := ⟨0, 0, 0, 0⟩

/-- Concrete subsector used as the LEFT leaf of the example tree. -/
def ssA : SubSector := ⟨1, 0⟩

/-- Concrete subsector used as the RIGHT leaf of the example tree. -/
def ssB : SubSector := ⟨2, 0⟩

/-- A depth-1 tree with a vertical partition at x = 0 pointing up
(delta_y = 1), left leaf `ssA` and right leaf `ssB`.  For x ≤ 0 the
point is behind the partition. -/
def tDemo : Node := Node.mk 0 0 0 1 bb0 bb0 (some (Sum.inr ssB)) (some (Sum.inr ssA))

/-- The raw record corresponding to `tDemo`: left child is subsector 0,
right child is subsector 1. -/
def mDemo : MapNode :=
  ⟨0, 0, 0, 1, bb0, bb0, ChildIdx.subsector 1, ChildIdx.subsector 0, 0⟩

/-- The subsector array of the concrete example. -/
def ssDemo : List SubSector := [ssA, ssB]

/-- A two-record node list: record 0 is `mDemo`, record 1 (the root)
has record 0 as its left child and subsector 0 as its right child. -/
def msDemo2 : List MapNode :=
  [mDemo, ⟨7, 7, 1, 1, bb0, bb0, ChildIdx.subsector 0, ChildIdx.node 0, 1⟩]

/-- Shape of a successfully built child in `Node::new`: a node index must
look up a record and recursively build it; a subsector index must look up
the subsector. -/
def childBuilt (fuel : Nat) (ms : List MapNode) (ss : List SubSector)
    (ci : ChildIdx) (c : Node ⊕ SubSector) : Prop :=
  match ci with
  | ChildIdx.node i =>
      ∃ m nc, listGetI16 ms i = some m ∧ nodeNew fuel m ms ss = some nc ∧ c = Sum.inl nc
  | ChildIdx.subsector i => ∃ s, listGetI16 ss i = some s ∧ c = Sum.inr s

/-- Invariant of the rebuild table of `Level::new`: every entry at an
index that the raw record array can resolve is the mirror of the tree
that `Node::new` builds for the record at the same index. -/
def TblOk (M : List MapNode) (ss : List SubSector) (tbl : List Node) : Prop :=
  ∀ (i : Nat), i < tbl.length → ∀ mi : MapNode, M.get? i = some mi →
    ∀ (fuel : Nat) (t : Node), nodeNew fuel mi M ss = some t → tbl.get? i = some t.mirror

theorem wrap16_fixed {n : Int} (h : isI16 n) : wrap16 n = n := by
  unfold wrap16; unfold isI16 at h; omega

theorem wrap16_range (n : Int) : isI16 (wrap16 n) := by
  unfold wrap16 isI16; omega

theorem wrap16_sub_cancel (a b : Int) (hb : isI16 b) :
    wrap16 (wrap16 (a + b) - a) = b := by
  unfold wrap16; unfold isI16 at hb; omega

/-- C2: the axis-aligned branches of is_point_behind behave as specified:
for a vertical partition (delta_x = 0) the point is behind iff
(x ≤ partition_x and delta_y > 0) or (x > partition_x and delta_y < 0);
for a horizontal partition (delta_y = 0) behind iff (y ≤ partition_y and
delta_x < 0) or (y > partition_y and delta_x > 0); and for the example
node with delta_x = 0, delta_y = 10, partition_x = 100 the test is true
at x = 99 and false at x = 101 for every y. -/
theorem C2_is_point_behind_axis_aligned :
    ∀ px py dx dy x y : Int,
      (dx = 0 →
        (isPointBehind px py dx dy x y = true ↔ (x ≤ px ∧ 0 < dy) ∨ (px < x ∧ dy < 0)))
      ∧ (dy = 0 →
        (isPointBehind px py dx dy x y = true ↔ (y ≤ py ∧ dx < 0) ∨ (py < y ∧ 0 < dx)))
      ∧ (∀ py' y' : Int, isPointBehind 100 py' 0 10 99 y' = true)
      ∧ (∀ py' y' : Int, isPointBehind 100 py' 0 10 101 y' = false) := by
  intro px py dx dy x y
  refine ⟨?_, ?_, ?_, ?_⟩
  · intro h; subst h; simp only [isPointBehind, if_pos rfl]
    split_ifs with hx <;> simp only [decide_eq_true_eq] <;> omega
  · intro h; subst h
    by_cases hdx : dx = 0
    · subst hdx; simp only [isPointBehind, if_pos rfl]
      split_ifs with hx <;> simp only [decide_eq_true_eq] <;> omega
    · simp only [isPointBehind, if_neg hdx, if_pos rfl]
      split_ifs with hy <;> simp <;> omega
  · intro py' y'; simp [isPointBehind]
  · intro py' y'; simp [isPointBehind]

/-- C3 counterexample: for the node with partition origin (0, -1) and
deltas (1, 1) at the point (0, 32767) — all values in the signed 16-bit
range — the exact mathematical cross product is 32768 > 0, yet
is_point_behind returns false: the i16 subtraction y - partition_y wraps
to -32768 before the 32-bit promotion.  The evaluation is therefore
neither equivalent to the exact cross product nor free of 16-bit
overflow over the full i16 range. -/
theorem C3_cross_product_counterexample :
    isI16 0 ∧ isI16 (-1) ∧ isI16 1 ∧ isI16 32767 ∧
    (0 < (0 + 1 - 0) * (32767 - (-1 : Int)) - (-1 + 1 - (-1)) * (0 - 0)) ∧
    isPointBehind 0 (-1) 1 1 0 32767 = false := by decide

/-- C3 (amended): for delta_x ≠ 0 and delta_y ≠ 0 the test equals the
cross-product sign test computed on 16-bit-wrapped differences
(dy * wrap16(x-px) < dx * wrap16(y-py)); it agrees with the exact cross
product whenever x-px and y-py themselves fit in i16; and the two
products, performed after promotion to 32 bits, always fit in the
signed 32-bit range, so the multiplication itself cannot overflow. -/
theorem C3_cross_product_amended :
    ∀ px py dx dy x y : Int,
      isI16 px → isI16 py → isI16 dx → isI16 dy → isI16 x → isI16 y →
      dx ≠ 0 → dy ≠ 0 →
      (isPointBehind px py dx dy x y = true ↔
        dy * wrap16 (x - px) < dx * wrap16 (y - py))
      ∧ (isI16 (x - px) → isI16 (y - py) →
         (isPointBehind px py dx dy x y = true ↔
           0 < dx * (y - py) - dy * (x - px)))
      ∧ (-(2 ^ 31) ≤ dx * wrap16 (y - py) ∧ dx * wrap16 (y - py) < 2 ^ 31
         ∧ -(2 ^ 31) ≤ dy * wrap16 (x - px) ∧ dy * wrap16 (x - px) < 2 ^ 31) := by
  intro px py dx dy x y hpx hpy hdx hdy hx hy hdx0 hdy0
  have e1 : wrap16 (wrap16 (px + dx) - px) = dx := wrap16_sub_cancel px dx hdx
  have e2 : wrap16 (wrap16 (py + dy) - py) = dy := wrap16_sub_cancel py dy hdy
  have hb : isPointBehind px py dx dy x y =
      decide (dy * wrap16 (x - px) < dx * wrap16 (y - py)) := by
    simp only [isPointBehind, if_neg hdx0, if_neg hdy0, e1, e2]
  refine ⟨?_, ?_, ?_⟩
  · rw [hb]; simp
  · intro hxr hyr
    rw [hb, wrap16_fixed hxr, wrap16_fixed hyr]
    simp only [decide_eq_true_eq]
    omega
  · obtain ⟨w1, w2⟩ := wrap16_range (y - py)
    obtain ⟨w3, w4⟩ := wrap16_range (x - px)
    obtain ⟨d1, d2⟩ := hdx
    obtain ⟨d3, d4⟩ := hdy
    refine ⟨?_, ?_, ?_, ?_⟩ <;> nlinarith

theorem testBit15_iff {v : Nat} (h : v < 65536) : v.testBit 15 = true ↔ 32768 ≤ v := by
  rw [Nat.testBit_to_div_mod]
  simp only [decide_eq_true_eq]
  omega

theorem and_32768_eq_zero_iff {v : Nat} : v &&& 32768 = 0 ↔ v.testBit 15 = false := by
  have h15 : (32768 : Nat) = 2 ^ 15 := by norm_num
  rw [h15, Nat.and_two_pow]
  cases hbit : v.testBit 15 <;> simp [hbit]

theorem xor_32768_eq {v : Nat} (h1 : 32768 ≤ v) (h2 : v < 65536) :
    v ^^^ 32768 = v - 32768 := by
  obtain ⟨r, rfl⟩ : ∃ r, v = 32768 + r := ⟨v - 32768, by omega⟩
  have hr : r < 32768 := by omega
  have hr2 : r < 2 ^ 15 := by omega
  have hkey : (32768 + r) ^^^ 32768 = r := by
    apply Nat.eq_of_testBit_eq
    intro i
    have h15 : (32768 : Nat) = 2 ^ 15 := by norm_num
    have hadd : (32768 + r : Nat) = 2 ^ 15 * 1 + r := by norm_num
    rw [Nat.testBit_xor, hadd, Nat.testBit_mul_pow_two_add 1 hr2 i, h15,
        Nat.testBit_two_pow]
    rcases Nat.lt_trichotomy i 15 with hi | hi | hi
    · have : (15 = i) = False := by simp; omega
      simp [hi, this]
    · subst hi
      simp [Nat.testBit_lt_two_pow hr2]
    · have hne : (15 = i) = False := by simp; omega
      have hlt : ¬ i < 15 := by omega
      have h1lt : (1 : Nat) < 2 ^ (i - 15) := by
        have : 1 ≤ i - 15 := by omega
        calc (1 : Nat) < 2 ^ 1 := by norm_num
        _ ≤ 2 ^ (i - 15) := Nat.pow_le_pow_right (by norm_num) this
      have hrlt : r < 2 ^ i := by
        calc r < 2 ^ 15 := hr2
        _ ≤ 2 ^ i := Nat.pow_le_pow_right (by norm_num) (by omega)
      simp [hne, hlt, Nat.testBit_lt_two_pow h1lt, Nat.testBit_lt_two_pow hrlt]
  omega

/-- C4: the child-tag decoder returns Node(v) when bit 15 of v is
clear, Subsector(v with bit 15 cleared) when bit 15 is set and
v ≠ 0xFFFF, and Subsector(0) for v = 0xFFFF; in particular 0x0005 maps
to Node(5), 0x8005 to Subsector(5) and 0xFFFF to Subsector(0). -/
theorem C4_child_tag_decoder :
    (∀ v : Nat, v < 65536 →
      (v.testBit 15 = false → getChild v = ChildIdx.node (Int.ofNat v))
      ∧ (v.testBit 15 = true → v ≠ 65535 →
         getChild v = ChildIdx.subsector (Int.ofNat (v - 32768)))
      ∧ (v = 65535 → getChild v = ChildIdx.subsector 0))
    ∧ getChild 5 = ChildIdx.node 5
    ∧ getChild 32773 = ChildIdx.subsector 5
    ∧ getChild 65535 = ChildIdx.subsector 0 := by
  refine ⟨?_, by decide, by decide, by decide⟩
  intro v hv
  refine ⟨?_, ?_, ?_⟩
  · intro hbit
    have hz : v &&& 32768 = 0 := and_32768_eq_zero_iff.mpr hbit
    have hlt : v < 32768 := by
      by_contra hge
      have ht := (testBit15_iff hv).mpr (by omega)
      rw [hbit] at ht
      exact Bool.false_ne_true ht
    simp only [getChild, if_pos hz, i16OfU16, if_pos hlt]
    rfl
  · intro hbit hne
    have hge : 32768 ≤ v := (testBit15_iff hv).mp hbit
    have hz : ¬ v &&& 32768 = 0 := by
      intro hz
      rw [and_32768_eq_zero_iff, hbit] at hz
      simp at hz
    have hxor : v ^^^ 32768 = v - 32768 := xor_32768_eq hge hv
    have hsub : v - 32768 < 32768 := by omega
    simp only [getChild, if_neg hz, if_neg hne, hxor, i16OfU16, if_pos hsub]
    rfl
  · intro he
    subst he
    decide

/-- C5 counterexample: the raw sidedef field 40000 is not the sentinel
65535 and cannot resolve inside an empty sidedef array, yet linedef
assembly produces Ok none (no sidedef) instead of the claimed fatal
error: the i16-to-usize sign extension turns every raw value of at
least 32768 into a stored index of at least 2^64 - 32768 ≥ 65535, which
the sentinel test absorbs. -/
theorem C5_sidedef_sentinel_counterexample :
    (40000 : Nat) ≠ 65535 ∧
    resolveSidedef ([] : List Nat) (i16AsUsize 40000) = Assembled.ok none := by
  refine ⟨by decide, ?_⟩
  have h : i16AsUsize 40000 = 18446744073709526080 := by decide
  rw [h]
  rfl

/-- C5 (amended): every raw 16-bit sidedef field of 32768 or more
(including the sentinel 65535) decodes through i16 sign extension to a
usize of at least 65535 and is treated as "no sidedef"; only raw values
up to 32767 that fall outside the sidedef-array bounds abort assembly;
in-bounds values resolve to the sidedef at that index. -/
theorem C5_sidedef_resolution_amended :
    ∀ (v : Nat) (sidedefs : List Nat), v < 65536 →
      (32768 ≤ v → resolveSidedef sidedefs (i16AsUsize v) = Assembled.ok none)
      ∧ (v < 32768 → sidedefs.length ≤ v →
         resolveSidedef sidedefs (i16AsUsize v) = Assembled.fatal)
      ∧ (v < 32768 → ∀ h : v < sidedefs.length,
         resolveSidedef sidedefs (i16AsUsize v) = Assembled.ok (some (sidedefs.get ⟨v, h⟩))) := by
  intro v sidedefs hv
  refine ⟨?_, ?_, ?_⟩
  · intro hge
    have hidx : 65535 ≤ i16AsUsize v := by
      unfold i16AsUsize
      split_ifs with h
      · omega
      · omega
    simp only [resolveSidedef, if_pos hidx]
  · intro hlt hlen
    have hid : i16AsUsize v = v := by unfold i16AsUsize; simp [hlt]
    have hnone : sidedefs.get? v = none := by
      rw [List.get?_eq_none]
      exact hlen
    simp only [resolveSidedef, hid, if_neg (by omega : ¬ 65535 ≤ v), hnone]
  · intro hlt h
    have hid : i16AsUsize v = v := by unfold i16AsUsize; simp [hlt]
    have hsome : sidedefs.get? v = some (sidedefs.get ⟨v, h⟩) := by
      rw [List.get?_eq_get h]
    simp only [resolveSidedef, hid, if_neg (by omega : ¬ 65535 ≤ v), hsome]

theorem wellFormed_mk (px py dx dy : Int) (rb lb : BBox) (rc lc : Option (Node ⊕ SubSector)) :
    (Node.mk px py dx dy rb lb rc lc).wellFormed =
      ((match lc with
        | none => false
        | some (Sum.inl n) => n.wellFormed
        | some (Sum.inr _) => true)
       && (match rc with
           | none => false
           | some (Sum.inl n) => n.wellFormed
           | some (Sum.inr _) => true)) := by
  rw [Node.wellFormed.eq_def]

theorem height_mk (px py dx dy : Int) (rb lb : BBox) (rc lc : Option (Node ⊕ SubSector)) :
    (Node.mk px py dx dy rb lb rc lc).height =
      1 + max
        (match lc with
         | some (Sum.inl n) => n.height
         | _ => 0)
        (match rc with
         | some (Sum.inl n) => n.height
         | _ => 0) := by
  rw [Node.height.eq_def]

theorem find_mk (px py dx dy : Int) (rb lb : BBox) (rc lc : Option (Node ⊕ SubSector)) (x y : Int) :
    (Node.mk px py dx dy rb lb rc lc).find x y =
      (if isPointBehind px py dx dy x y then
        match lc with
        | none => none
        | some (Sum.inl n) => n.find x y
        | some (Sum.inr s) => some s
      else
        match rc with
        | none => none
        | some (Sum.inl n) => n.find x y
        | some (Sum.inr s) => some s) := by
  rw [Node.find.eq_def]

theorem findLevels_mk (px py dx dy : Int) (rb lb : BBox) (rc lc : Option (Node ⊕ SubSector))
    (x y : Int) (levels : Nat) :
    (Node.mk px py dx dy rb lb rc lc).findLevels x y levels =
      (if isPointBehind px py dx dy x y then
        match rc with
        | none => none
        | some c =>
          if levels = 1 then some c
          else
            match c with
            | Sum.inl n => n.findLevels x y (u32dec levels)
            | Sum.inr _ => some c
      else
        match lc with
        | none => none
        | some c =>
          if levels = 1 then some c
          else
            match c with
            | Sum.inl n => n.findLevels x y (u32dec levels)
            | Sum.inr _ => some c) := by
  rw [Node.findLevels.eq_def]

theorem mirror_mk (px py dx dy : Int) (rb lb : BBox) (rc lc : Option (Node ⊕ SubSector)) :
    (Node.mk px py dx dy rb lb rc lc).mirror =
      Node.mk px py dx dy rb lb
        (match lc with
         | some (Sum.inl n) => some (Sum.inl n.mirror)
         | c => c)
        (match rc with
         | some (Sum.inl n) => some (Sum.inl n.mirror)
         | c => c) := by
  rw [Node.mirror.eq_def]

theorem leavesOf_mk (px py dx dy : Int) (rb lb : BBox) (rc lc : Option (Node ⊕ SubSector)) :
    (Node.mk px py dx dy rb lb rc lc).leavesOf =
      (match lc with
       | some (Sum.inl n) => n.leavesOf
       | some (Sum.inr s) => [s]
       | none => [])
      ++ (match rc with
          | some (Sum.inl n) => n.leavesOf
          | some (Sum.inr s) => [s]
          | none => []) := by
  rw [Node.leavesOf.eq_def]

theorem height_pos (t : Node) : 1 ≤ t.height := by
  cases t with
  | mk px py dx dy rb lb rc lc => rw [height_mk]; omega

theorem findLevels_eq_mirror :
    ∀ (levels : Nat) (t : Node) (x y : Int),
      t.wellFormed = true → t.height ≤ levels → levels < 4294967296 →
      t.findLevels x y levels = (t.mirror.find x y).map Sum.inr := by
  intro levels
  induction levels using Nat.strong_induction_on with
  | _ levels IH =>
    intro t x y hwf hht hlt
    cases t with
    | mk px py dx dy rb lb rc lc =>
      rw [wellFormed_mk, Bool.and_eq_true] at hwf
      obtain ⟨hwl, hwr⟩ := hwf
      rw [height_mk] at hht
      rw [findLevels_mk, mirror_mk, find_mk]
      by_cases hb : isPointBehind px py dx dy x y
      · rw [if_pos hb, if_pos hb]
        rcases rc with _ | cr
        · simp at hwr
        rcases cr with n | s
        · simp only at hwr hht ⊢
          have hn1 : 1 ≤ n.height := height_pos n
          have hle : 1 + n.height ≤ levels :=
            le_trans (Nat.add_le_add_left (le_max_right _ _) 1) hht
          have hlev1 : ¬ levels = 1 := by omega
          have hdec : u32dec levels = levels - 1 := by unfold u32dec; omega
          rw [if_neg hlev1, hdec]
          exact IH (levels - 1) (by omega) n x y hwr (by omega) (by omega)
        · simp only at hwr ⊢
          split_ifs <;> rfl
      · rw [if_neg hb, if_neg hb]
        rcases lc with _ | cl
        · simp at hwl
        rcases cl with n | s
        · simp only at hwl hht ⊢
          have hn1 : 1 ≤ n.height := height_pos n
          have hle : 1 + n.height ≤ levels :=
            le_trans (Nat.add_le_add_left (le_max_left _ _) 1) hht
          have hlev1 : ¬ levels = 1 := by omega
          have hdec : u32dec levels = levels - 1 := by unfold u32dec; omega
          rw [if_neg hlev1, hdec]
          exact IH (levels - 1) (by omega) n x y hwl (by omega) (by omega)
        · simp only at hwl ⊢
          split_ifs <;> rfl

theorem nodeNew_succ_elim {fuel : Nat} {n : MapNode} {ms : List MapNode}
    {ss : List SubSector} {t : Node} (h : nodeNew (fuel + 1) n ms ss = some t) :
    ∃ lc rc,
      t = Node.mk n.partition_x n.partition_y n.delta_x n.delta_y
            n.right_bbox n.left_bbox (some rc) (some lc)
      ∧ childBuilt fuel ms ss n.left_child lc
      ∧ childBuilt fuel ms ss n.right_child rc := by
  rw [nodeNew] at h
  rcases hL : n.left_child with i | i <;> rw [hL] at h <;> (try simp only [Option.map_some, Option.map_some'] at h) <;> (try simp only at h)
  · rcases hg : listGetI16 ms i with _ | m <;> rw [hg] at h <;> (try simp only [Option.map_some, Option.map_some'] at h) <;> (try simp only at h)
    · simp at h
    rcases hn : nodeNew fuel m ms ss with _ | nc <;> rw [hn] at h <;> (try simp only [Option.map] at h)
    · simp at h
    · rcases hR : n.right_child with i2 | i2 <;> rw [hR] at h <;> (try simp only [Option.map_some, Option.map_some'] at h) <;> (try simp only at h)
      · rcases hg2 : listGetI16 ms i2 with _ | m2 <;> rw [hg2] at h <;> (try simp only [Option.map_some, Option.map_some'] at h) <;> (try simp only at h)
        · simp at h
        rcases hn2 : nodeNew fuel m2 ms ss with _ | nc2 <;> rw [hn2] at h <;> (try simp only [Option.map] at h)
        · simp at h
        · (try simp only [Option.map_some, Option.some.injEq] at h)
          exact ⟨Sum.inl nc, Sum.inl nc2, h.symm,
            ⟨m, nc, hg, hn, rfl⟩, ⟨m2, nc2, hg2, hn2, rfl⟩⟩
      · rcases hg2 : listGetI16 ss i2 with _ | s2 <;> rw [hg2] at h <;> (try simp only [Option.map_some, Option.map_some'] at h) <;> (try simp only at h)
        · simp at h
        · (try simp only [Option.map_some, Option.some.injEq] at h)
          exact ⟨Sum.inl nc, Sum.inr s2, h.symm,
            ⟨m, nc, hg, hn, rfl⟩, ⟨s2, hg2, rfl⟩⟩
  · rcases hg : listGetI16 ss i with _ | s <;> rw [hg] at h <;> (try simp only [Option.map_some, Option.map_some'] at h) <;> (try simp only at h)
    · simp at h
    · rcases hR : n.right_child with i2 | i2 <;> rw [hR] at h <;> (try simp only [Option.map_some, Option.map_some'] at h) <;> (try simp only at h)
      · rcases hg2 : listGetI16 ms i2 with _ | m2 <;> rw [hg2] at h <;> (try simp only [Option.map_some, Option.map_some'] at h) <;> (try simp only at h)
        · simp at h
        rcases hn2 : nodeNew fuel m2 ms ss with _ | nc2 <;> rw [hn2] at h <;> (try simp only [Option.map] at h)
        · simp at h
        · (try simp only [Option.map_some, Option.some.injEq] at h)
          exact ⟨Sum.inr s, Sum.inl nc2, h.symm,
            ⟨s, hg, rfl⟩, ⟨m2, nc2, hg2, hn2, rfl⟩⟩
      · rcases hg2 : listGetI16 ss i2 with _ | s2 <;> rw [hg2] at h <;> (try simp only [Option.map_some, Option.map_some'] at h) <;> (try simp only at h)
        · simp at h
        · (try simp only [Option.map_some, Option.some.injEq] at h)
          exact ⟨Sum.inr s, Sum.inr s2, h.symm,
            ⟨s, hg, rfl⟩, ⟨s2, hg2, rfl⟩⟩

theorem nodeNew_wellFormed :
    ∀ (fuel : Nat) (n : MapNode) (ms : List MapNode) (ss : List SubSector) (t : Node),
      nodeNew fuel n ms ss = some t → t.wellFormed = true := by
  intro fuel
  induction fuel with
  | zero => intro n ms ss t h; rw [nodeNew] at h; exact absurd h (by simp)
  | succ fuel IH =>
    intro n ms ss t h
    obtain ⟨lc, rc, rfl, hl, hr⟩ := nodeNew_succ_elim h
    rw [wellFormed_mk, Bool.and_eq_true]
    constructor
    · unfold childBuilt at hl
      rcases hLc : n.left_child with i | i <;> rw [hLc] at hl <;> (try simp only at hl)
      · obtain ⟨m, nc, _, hb, rfl⟩ := hl
        simp only
        exact IH m ms ss nc hb
      · obtain ⟨s, _, rfl⟩ := hl
        simp only
    · unfold childBuilt at hr
      rcases hRc : n.right_child with i | i <;> rw [hRc] at hr <;> (try simp only at hr)
      · obtain ⟨m, nc, _, hb, rfl⟩ := hr
        simp only
        exact IH m ms ss nc hb
      · obtain ⟨s, _, rfl⟩ := hr
        simp only

theorem nodeNew_find_leaf :
    ∀ (fuel : Nat) (n : MapNode) (ms : List MapNode) (ss : List SubSector) (t : Node),
      nodeNew fuel n ms ss = some t →
      ∀ x y : Int, ∃ s, t.find x y = some s ∧ s ∈ t.leavesOf := by
  intro fuel
  induction fuel with
  | zero => intro n ms ss t h; rw [nodeNew] at h; exact absurd h (by simp)
  | succ fuel IH =>
    intro n ms ss t h x y
    obtain ⟨lc, rc, rfl, hl, hr⟩ := nodeNew_succ_elim h
    rw [find_mk, leavesOf_mk]
    by_cases hb : isPointBehind n.partition_x n.partition_y n.delta_x n.delta_y x y
    · rw [if_pos hb]
      unfold childBuilt at hl
      rcases hLc : n.left_child with i | i <;> rw [hLc] at hl <;> (try simp only at hl)
      · obtain ⟨m, nc, _, hbuild, rfl⟩ := hl
        obtain ⟨s, hfind, hmem⟩ := IH m ms ss nc hbuild x y
        exact ⟨s, hfind, List.mem_append_left _ hmem⟩
      · obtain ⟨s, _, rfl⟩ := hl
        exact ⟨s, rfl, List.mem_append_left _ (List.mem_singleton_self s)⟩
    · rw [if_neg hb]
      unfold childBuilt at hr
      rcases hRc : n.right_child with i | i <;> rw [hRc] at hr <;> (try simp only at hr)
      · obtain ⟨m, nc, _, hbuild, rfl⟩ := hr
        obtain ⟨s, hfind, hmem⟩ := IH m ms ss nc hbuild x y
        exact ⟨s, hfind, List.mem_append_right _ hmem⟩
      · obtain ⟨s, _, rfl⟩ := hr
        exact ⟨s, rfl, List.mem_append_right _ (List.mem_singleton_self s)⟩

theorem nodeNew_findLevels_isSome :
    ∀ (fuel : Nat) (n : MapNode) (ms : List MapNode) (ss : List SubSector) (t : Node),
      nodeNew fuel n ms ss = some t →
      ∀ (x y : Int) (levels : Nat), (t.findLevels x y levels).isSome = true := by
  intro fuel
  induction fuel with
  | zero => intro n ms ss t h; rw [nodeNew] at h; exact absurd h (by simp)
  | succ fuel IH =>
    intro n ms ss t h x y levels
    obtain ⟨lc, rc, rfl, hl, hr⟩ := nodeNew_succ_elim h
    rw [findLevels_mk]
    by_cases hb : isPointBehind n.partition_x n.partition_y n.delta_x n.delta_y x y
    · rw [if_pos hb]
      unfold childBuilt at hr
      rcases hRc : n.right_child with i | i <;> rw [hRc] at hr <;> (try simp only at hr)
      · obtain ⟨m, nc, _, hbuild, rfl⟩ := hr
        by_cases h1 : levels = 1
        · simp [h1]
        · simp only [if_neg h1]
          exact IH m ms ss nc hbuild x y (u32dec levels)
      · obtain ⟨s, _, rfl⟩ := hr
        by_cases h1 : levels = 1 <;> simp [h1]
    · rw [if_neg hb]
      unfold childBuilt at hl
      rcases hLc : n.left_child with i | i <;> rw [hLc] at hl <;> (try simp only at hl)
      · obtain ⟨m, nc, _, hbuild, rfl⟩ := hl
        by_cases h1 : levels = 1
        · simp [h1]
        · simp only [if_neg h1]
          exact IH m ms ss nc hbuild x y (u32dec levels)
      · obtain ⟨s, _, rfl⟩ := hl
        by_cases h1 : levels = 1 <;> simp [h1]

theorem listGetI16_elim {α : Type} {l : List α} {i : Int} {a : α}
    (h : listGetI16 l i = some a) :
    ¬ i < 0 ∧ l.get? i.toNat = some a := by
  unfold listGetI16 at h
  by_cases hi : i < 0
  · rw [if_pos hi] at h; exact absurd h (by simp)
  · rw [if_neg hi] at h; exact ⟨hi, h⟩

theorem rebuildStep_mirror (M : List MapNode) (ss : List SubSector) (tbl0 : List Node)
    (m : MapNode) (l r : Node ⊕ SubSector)
    (hOk : TblOk M ss tbl0)
    (hl : resolveChild tbl0 ss m.left_child = some l)
    (hr : resolveChild tbl0 ss m.right_child = some r)
    (fuel : Nat) (t : Node) (hbuild : nodeNew fuel m M ss = some t) :
    Node.mk m.partition_x m.partition_y m.delta_x m.delta_y m.right_bbox m.left_bbox
      (some l) (some r) = t.mirror := by
  cases fuel with
  | zero => rw [nodeNew] at hbuild; exact absurd hbuild (by simp)
  | succ fuel =>
    obtain ⟨lcB, rcB, rfl, hcl, hcr⟩ := nodeNew_succ_elim hbuild
    unfold childBuilt at hcl hcr
    have hLeq : ∀ c : Node ⊕ SubSector, lcB = c → True := fun _ _ => trivial
    rcases hLc : m.left_child with i | i <;> rw [hLc] at hcl hl <;> (try simp only at hcl)
    · obtain ⟨mi, nc, hgi, hni, rfl⟩ := hcl
      simp only [resolveChild] at hl
      rcases hgt : listGetI16 tbl0 i with _ | u <;> rw [hgt] at hl
      · exact absurd hl (by simp)
      simp only [Option.map_some', Option.some.injEq] at hl
      obtain rfl := hl.symm
      obtain ⟨hi0, hgt'⟩ := listGetI16_elim hgt
      obtain ⟨hi0', hgi'⟩ := listGetI16_elim hgi
      obtain ⟨hlt, -⟩ := List.get?_eq_some.mp hgt'
      have hOkI := hOk i.toNat hlt mi hgi' fuel nc hni
      rw [hgt'] at hOkI
      simp only [Option.some.injEq] at hOkI
      obtain rfl := hOkI
      -- right child
      rcases hRc : m.right_child with i2 | i2 <;> rw [hRc] at hcr hr <;> (try simp only at hcr)
      · obtain ⟨mi2, nc2, hgi2, hni2, rfl⟩ := hcr
        simp only [resolveChild] at hr
        rcases hgt2 : listGetI16 tbl0 i2 with _ | u2 <;> rw [hgt2] at hr
        · exact absurd hr (by simp)
        simp only [Option.map_some', Option.some.injEq] at hr
        obtain rfl := hr.symm
        obtain ⟨hi20, hgt2'⟩ := listGetI16_elim hgt2
        obtain ⟨hi20', hgi2'⟩ := listGetI16_elim hgi2
        obtain ⟨hlt2, -⟩ := List.get?_eq_some.mp hgt2'
        have hOkI2 := hOk i2.toNat hlt2 mi2 hgi2' fuel nc2 hni2
        rw [hgt2'] at hOkI2
        simp only [Option.some.injEq] at hOkI2
        obtain rfl := hOkI2
        rw [mirror_mk]
      · obtain ⟨s2, hgs2, rfl⟩ := hcr
        simp only [resolveChild] at hr
        rw [hgs2] at hr
        simp only [Option.map_some', Option.some.injEq] at hr
        obtain rfl := hr.symm
        rw [mirror_mk]
    · obtain ⟨s, hgs, rfl⟩ := hcl
      simp only [resolveChild] at hl
      rw [hgs] at hl
      simp only [Option.map_some', Option.some.injEq] at hl
      obtain rfl := hl.symm
      rcases hRc : m.right_child with i2 | i2 <;> rw [hRc] at hcr hr <;> (try simp only at hcr)
      · obtain ⟨mi2, nc2, hgi2, hni2, rfl⟩ := hcr
        simp only [resolveChild] at hr
        rcases hgt2 : listGetI16 tbl0 i2 with _ | u2 <;> rw [hgt2] at hr
        · exact absurd hr (by simp)
        simp only [Option.map_some', Option.some.injEq] at hr
        obtain rfl := hr.symm
        obtain ⟨hi20, hgt2'⟩ := listGetI16_elim hgt2
        obtain ⟨hi20', hgi2'⟩ := listGetI16_elim hgi2
        obtain ⟨hlt2, -⟩ := List.get?_eq_some.mp hgt2'
        have hOkI2 := hOk i2.toNat hlt2 mi2 hgi2' fuel nc2 hni2
        rw [hgt2'] at hOkI2
        simp only [Option.some.injEq] at hOkI2
        obtain rfl := hOkI2
        rw [mirror_mk]
      · obtain ⟨s2, hgs2, rfl⟩ := hcr
        simp only [resolveChild] at hr
        rw [hgs2] at hr
        simp only [Option.map_some', Option.some.injEq] at hr
        obtain rfl := hr.symm
        rw [mirror_mk]

theorem rebuildGo_cons (ss : List SubSector) (tbl : List Node) (m : MapNode)
    (rest : List MapNode) :
    rebuildGo ss tbl (m :: rest) =
      (match resolveChild tbl ss m.left_child, resolveChild tbl ss m.right_child with
       | some l, some r =>
         rebuildGo ss
           (tbl ++ [Node.mk m.partition_x m.partition_y m.delta_x m.delta_y
                    m.right_bbox m.left_bbox (some l) (some r)]) rest
       | _, _ => none) := by
  rw [rebuildGo]

theorem rebuildGo_length (ss : List SubSector) :
    ∀ (rest : List MapNode) (tbl0 tbl : List Node),
      rebuildGo ss tbl0 rest = some tbl → tbl.length = tbl0.length + rest.length := by
  intro rest
  induction rest with
  | nil =>
    intro tbl0 tbl h
    rw [rebuildGo] at h
    simp only [Option.some.injEq] at h
    subst h
    simp
  | cons m rest IH =>
    intro tbl0 tbl h
    rw [rebuildGo_cons] at h
    rcases hL : resolveChild tbl0 ss m.left_child with _ | l <;> rw [hL] at h
    · exact absurd h (by simp)
    rcases hR : resolveChild tbl0 ss m.right_child with _ | r <;> rw [hR] at h
    · exact absurd h (by simp)
    simp only at h
    have := IH _ _ h
    simp only [List.length_append, List.length_singleton] at this
    simp [this, List.length_cons]
    omega

theorem rebuildGo_tblOk (M : List MapNode) (ss : List SubSector) :
    ∀ (rest : List MapNode) (tbl0 tbl : List Node),
      rebuildGo ss tbl0 rest = some tbl →
      TblOk M ss tbl0 →
      (∀ (j : Nat) (mj : MapNode), M.get? (tbl0.length + j) = some mj →
        rest.get? j = some mj) →
      TblOk M ss tbl := by
  intro rest
  induction rest with
  | nil =>
    intro tbl0 tbl h hOk _
    rw [rebuildGo] at h
    simp only [Option.some.injEq] at h
    subst h
    exact hOk
  | cons m rest IH =>
    intro tbl0 tbl h hOk hagree
    rw [rebuildGo_cons] at h
    rcases hL : resolveChild tbl0 ss m.left_child with _ | l <;> rw [hL] at h
    · exact absurd h (by simp)
    rcases hR : resolveChild tbl0 ss m.right_child with _ | r <;> rw [hR] at h
    · exact absurd h (by simp)
    simp only at h
    apply IH _ _ h
    · -- the extended table is still ok
      intro i hi mi hMi fuel t hbuild
      rcases Nat.lt_or_ge i tbl0.length with hlt | hge
      · rw [List.get?_append hlt]
        exact hOk i hlt mi hMi fuel t hbuild
      · have hieq : i = tbl0.length := by
          simp only [List.length_append, List.length_singleton] at hi
          omega
        subst hieq
        have hm : m = mi := by
          have := hagree 0 mi (by simpa using hMi)
          simp only [List.get?] at this
          exact (Option.some.injEq _ _).mp this
        subst hm
        have hstep := rebuildStep_mirror M ss tbl0 m l r hOk hL hR fuel t hbuild
        rw [List.get?_concat_length]
        rw [hstep]
    · -- agreement for the tail
      intro j mj hMj
      have := hagree (j + 1) mj (by
        simp only [List.length_append, List.length_singleton] at hMj ⊢
        have : tbl0.length + 1 + j = tbl0.length + (j + 1) := by omega
        rw [← this]
        exact hMj)
      simpa using this

theorem rebuildGo_append (ss : List SubSector) :
    ∀ (xs ys : List MapNode) (tbl0 : List Node),
      rebuildGo ss tbl0 (xs ++ ys) =
        (rebuildGo ss tbl0 xs).bind (fun tbl1 => rebuildGo ss tbl1 ys) := by
  intro xs
  induction xs with
  | nil =>
    intro ys tbl0
    rw [List.nil_append, rebuildGo]
    rfl
  | cons m xs IH =>
    intro ys tbl0
    rw [List.cons_append, rebuildGo_cons, rebuildGo_cons]
    rcases resolveChild tbl0 ss m.left_child with _ | l <;>
      rcases resolveChild tbl0 ss m.right_child with _ | r <;>
      simp only <;> (try rfl)
    exact IH ys _

theorem dropLast_concat_getLast {α : Type} :
    ∀ (l : List α) (a : α), l.getLast? = some a → l.dropLast ++ [a] = l := by
  intro l
  induction l with
  | nil => intro a h; simp at h
  | cons x xs IH =>
    intro a h
    cases xs with
    | nil =>
      simp only [List.getLast?_singleton, Option.some.injEq] at h
      subst h
      simp
    | cons y ys =>
      rw [List.getLast?_cons_cons] at h
      have hrec := IH a h
      have hd : (x :: y :: ys).dropLast = x :: (y :: ys).dropLast := by
        simp [List.dropLast]
      rw [hd, List.cons_append, hrec]

/-- C6 (amended): the node rebuild of Level::new preserves the raw
tree's shape only up to a mirror: whenever both the rebuild and the raw
recursive construction succeed, the rebuilt root equals the raw tree
with the two children of every node swapped, with subsector leaves
still resolved to the subsectors at the same indices. -/
theorem C6_rebuild_mirrors_raw_tree :
    ∀ (ms : List MapNode) (ss : List SubSector) (r t : Node),
      levelRoot ss ms = some r → wadRoot ms ss = some t → r = t.mirror := by
  intro ms ss r t hr ht
  unfold wadRoot at ht
  rcases hlast : ms.getLast? with _ | root <;> rw [hlast] at ht
  · exact absurd ht (by simp)
  simp only at ht
  have hsplit : ms.dropLast ++ [root] = ms := dropLast_concat_getLast ms root hlast
  unfold levelRoot rebuildNodes at hr
  rw [← hsplit, rebuildGo_append] at hr
  rcases h1 : rebuildGo ss [] ms.dropLast with _ | tbl1 <;> rw [h1] at hr
  · exact absurd hr (by simp)
  simp only [Option.some_bind] at hr
  rw [rebuildGo_cons] at hr
  rcases hL : resolveChild tbl1 ss root.left_child with _ | l <;> rw [hL] at hr
  · exact absurd hr (by simp)
  rcases hR : resolveChild tbl1 ss root.right_child with _ | r2 <;> rw [hR] at hr
  · exact absurd hr (by simp)
  simp only at hr
  rw [rebuildGo] at hr
  simp only [Option.some_bind] at hr
  have hOkNil : TblOk ms.dropLast ss [] := by
    intro i hi
    simp at hi
  have hagree : ∀ (j : Nat) (mj : MapNode),
      (ms.dropLast).get? ((List.length ([] : List Node)) + j) = some mj →
      (ms.dropLast).get? j = some mj := by
    intro j mj hj
    simpa using hj
  have hOk1 : TblOk ms.dropLast ss tbl1 :=
    rebuildGo_tblOk ms.dropLast ss ms.dropLast [] tbl1 h1 hOkNil hagree
  have hstep := rebuildStep_mirror ms.dropLast ss tbl1 root l r2 hOk1 hL hR ms.length t ht
  rw [List.length_append, List.length_singleton] at hr
  have hidx : tbl1.length + 1 - 1 = tbl1.length := by omega
  rw [hidx, List.get?_concat_length] at hr
  simp only [Option.some.injEq] at hr
  rw [← hr]
  exact hstep

/-- C6 counterexample: for a single raw node whose left child is
subsector 0 (ssA) and right child is subsector 1 (ssB), the rebuilt
root's left_child field holds ssB — not the resolution of the raw
node's left child: Level::new stores the resolved left child in
right_child and the resolved right child in left_child. -/
theorem C6_rebuild_counterexample :
    mDemo.left_child = ChildIdx.subsector 0 ∧ ssDemo.get? 0 = some ssA ∧
    (levelRoot ssDemo [mDemo]).map Node.leftChild = some (some (Sum.inr ssB)) ∧
    ssB ≠ ssA := by
  refine ⟨rfl, rfl, ?_, by decide⟩
  rfl

/-- C1 counterexample: on a depth-1 tree whose query point is behind
the partition, find descends into the left child and returns ssA, while
find_partial (at depth 1, enough to reach a leaf) descends into the
right child and returns ssB, a different subsector: the two descents
are not identical. -/
theorem C1_locate_descent_counterexample :
    tDemo.findLevels (-5) 0 1 = some (Sum.inr ssB) ∧
    tDemo.find (-5) 0 = some ssA ∧ ssA ≠ ssB :=
  ⟨rfl, rfl, by decide⟩

/-- C1 (amended): find_partial does not perform the identical descent
of find: at every internal node it selects the opposite child (the left
child when is_point_behind is false, the right child when it is true).
Consequently, for any depth at least the height of the tree (and below
2^32), find_partial returns exactly the subsector leaf that find
reaches on the mirrored tree, the tree with the two children of every
node swapped. -/
theorem C1_locate_levels_mirror_descent :
    ∀ (t : Node) (x y : Int) (levels : Nat),
      t.wellFormed = true → t.height ≤ levels → levels < 4294967296 →
      t.findLevels x y levels = (t.mirror.find x y).map Sum.inr :=
  fun t x y levels h1 h2 h3 => findLevels_eq_mirror levels t x y h1 h2 h3

/-- Witness for C1 at a concrete depth-1 tree. -/
theorem C1_locate_levels_mirror_descent_witness :
    tDemo.wellFormed = true ∧ tDemo.height ≤ 1 ∧ (1 : Nat) < 4294967296 ∧
    tDemo.findLevels (-5) 0 1 = (tDemo.mirror.find (-5) 0).map Sum.inr :=
  ⟨rfl, by decide, by decide, C1_locate_levels_mirror_descent tDemo (-5) 0 1 rfl (by decide) (by decide)⟩

/-- C9 counterexample: find_partial with levels = 0 on a depth-1 tree
returns the selected child subsector, not the root node: the function
always performs at least one descent step, so locate_partial(x, y, 0)
never returns the root itself. -/
theorem C9_depth_zero_counterexample :
    tDemo.findLevels (-5) 0 0 = some (Sum.inr ssB) ∧
    some (Sum.inr ssB) ≠ some (Sum.inl tDemo) := by
  refine ⟨rfl, ?_⟩
  simp

/-- C9 (amended): find_partial with levels = 0 skips the levels == 1
early stop, wraps the u32 depth counter to 2^32 - 1 and therefore
performs a full descent to a leaf, returning what find returns on the
mirrored tree (for any well-formed tree of height at most 2^32 - 1);
the documented root-at-depth-0 behaviour lives in the caller
draw_bsp_search, which special-cases depth 0 and never passes 0 to
find_partial. -/
theorem C9_depth_zero_amended :
    (∀ (t : Node) (x y : Int),
      t.wellFormed = true → t.height ≤ 4294967295 →
      t.findLevels x y 0 = (t.mirror.find x y).map Sum.inr)
    ∧ ∀ (t : Node) (x y : Int), bspSearchTarget t x y 0 = some (Sum.inl t) := by
  constructor
  · intro t x y hwf hht
    cases t with
    | mk px py dx dy rb lb rc lc =>
      rw [wellFormed_mk, Bool.and_eq_true] at hwf
      obtain ⟨hwl, hwr⟩ := hwf
      rw [height_mk] at hht
      rw [findLevels_mk, mirror_mk, find_mk]
      by_cases hb : isPointBehind px py dx dy x y
      · rw [if_pos hb, if_pos hb]
        rcases rc with _ | cr
        · simp at hwr
        rcases cr with n | s
        · simp only at hwr hht ⊢
          have hmax := le_max_right
            (match lc with
             | some (Sum.inl n) => n.height
             | _ => 0) n.height
          have hn : n.height ≤ 4294967295 := by omega
          have hdec : u32dec 0 = 4294967295 := by unfold u32dec; omega
          rw [if_neg (by omega : ¬ (0 : Nat) = 1), hdec]
          exact findLevels_eq_mirror 4294967295 n x y hwr hn (by omega)
        · simp only at hwr ⊢
          rw [if_neg (by omega : ¬ (0 : Nat) = 1)]
          rfl
      · rw [if_neg hb, if_neg hb]
        rcases lc with _ | cl
        · simp at hwl
        rcases cl with n | s
        · simp only at hwl hht ⊢
          have hmax := le_max_left n.height
            (match rc with
             | some (Sum.inl n) => n.height
             | _ => 0)
          have hn : n.height ≤ 4294967295 := by omega
          have hdec : u32dec 0 = 4294967295 := by unfold u32dec; omega
          rw [if_neg (by omega : ¬ (0 : Nat) = 1), hdec]
          exact findLevels_eq_mirror 4294967295 n x y hwl hn (by omega)
        · simp only at hwl ⊢
          rw [if_neg (by omega : ¬ (0 : Nat) = 1)]
          rfl
  · intro t x y
    unfold bspSearchTarget
    rw [if_pos rfl]

/-- Witness for C9 at a concrete depth-1 tree. -/
theorem C9_depth_zero_amended_witness :
    tDemo.wellFormed = true ∧ tDemo.height ≤ 4294967295 ∧
    tDemo.findLevels (-5) 0 0 = (tDemo.mirror.find (-5) 0).map Sum.inr ∧
    bspSearchTarget tDemo (-5) 0 0 = some (Sum.inl tDemo) :=
  ⟨rfl, by decide, C9_depth_zero_amended.1 tDemo (-5) 0 rfl (by decide), C9_depth_zero_amended.2 tDemo (-5) 0⟩

/-- C7: point location is total on constructed trees: whenever the
recursive construction from the decoded map records succeeds, find
terminates (it is structurally recursive in this embedding) and returns
some subsector for every integer coordinate pair, and that subsector is
a leaf of the tree. -/
theorem C7_locate_total_returns_leaf :
    ∀ (ms : List MapNode) (ss : List SubSector) (t : Node),
      wadRoot ms ss = some t →
      ∀ x y : Int, ∃ s, t.find x y = some s ∧ s ∈ t.leavesOf := by
  intro ms ss t h x y
  unfold wadRoot at h
  rcases hlast : ms.getLast? with _ | root <;> rw [hlast] at h
  · exact absurd h (by simp)
  simp only at h
  exact nodeNew_find_leaf ms.length root ms.dropLast ss t h x y

/-- Witness for C7 on a concrete one-record node list. -/
theorem C7_locate_total_returns_leaf_witness :
    wadRoot [mDemo] ssDemo = some tDemo ∧
    ∃ s, tDemo.find (-5) 0 = some s ∧ s ∈ tDemo.leavesOf :=
  ⟨rfl, C7_locate_total_returns_leaf [mDemo] ssDemo tDemo rfl (-5) 0⟩

/-- C10: every tree produced by the recursive construction from
decoded map records has both children of every node populated (it is
well-formed), and consequently neither find nor find_partial can ever
hit the missing-child unwrap on such a tree: both always return a
value, at every depth argument. -/
theorem C10_children_populated :
    ∀ (fuel : Nat) (n : MapNode) (ms : List MapNode) (ss : List SubSector) (t : Node),
      nodeNew fuel n ms ss = some t →
      t.wellFormed = true ∧
      ∀ (x y : Int) (levels : Nat),
        (t.find x y).isSome = true ∧ (t.findLevels x y levels).isSome = true := by
  intro fuel n ms ss t h
  refine ⟨nodeNew_wellFormed fuel n ms ss t h, ?_⟩
  intro x y levels
  constructor
  · obtain ⟨s, hs, -⟩ := nodeNew_find_leaf fuel n ms ss t h x y
    rw [hs]
    rfl
  · exact nodeNew_findLevels_isSome fuel n ms ss t h x y levels

/-- Witness for C10 on a concrete one-record build. -/
theorem C10_children_populated_witness :
    nodeNew 1 mDemo [] ssDemo = some tDemo ∧ tDemo.wellFormed = true ∧
    (tDemo.find (-5) 0).isSome = true ∧ (tDemo.findLevels (-5) 0 3).isSome = true :=
  ⟨rfl, (C10_children_populated 1 mDemo [] ssDemo tDemo rfl).1,
   ((C10_children_populated 1 mDemo [] ssDemo tDemo rfl).2 (-5) 0 3).1,
   ((C10_children_populated 1 mDemo [] ssDemo tDemo rfl).2 (-5) 0 3).2⟩

/-- Witness for C6 on a concrete one-record node list. -/
theorem C6_rebuild_mirrors_raw_tree_witness :
    levelRoot ssDemo [mDemo] =
      some (Node.mk 0 0 0 1 bb0 bb0 (some (Sum.inr ssA)) (some (Sum.inr ssB))) ∧
    wadRoot [mDemo] ssDemo = some tDemo ∧
    Node.mk 0 0 0 1 bb0 bb0 (some (Sum.inr ssA)) (some (Sum.inr ssB)) = tDemo.mirror :=
  ⟨rfl, rfl,
   C6_rebuild_mirrors_raw_tree [mDemo] ssDemo
     (Node.mk 0 0 0 1 bb0 bb0 (some (Sum.inr ssA)) (some (Sum.inr ssB))) tDemo rfl rfl⟩

/-- C8 counterexample: a segment exactly centered on the viewer
(viewer angle π, endpoint bearings π - π/8 and π + π/8, midpoint
bearing equal to the viewer angle, angular span π/4 within the field of
view) is reported not visible when the first endpoint's bearing is the
smaller of the two: the test rejects every pair with a1 < a2 before any
field-of-view reasoning. -/
theorem C8_visibility_counterexample :
    (Real.pi - Real.pi / 8 + (Real.pi + Real.pi / 8)) / 2 = Real.pi ∧
    |Real.pi + Real.pi / 8 - Real.pi| ≤ Real.pi / 4 ∧
    |Real.pi - Real.pi / 8 - Real.pi| ≤ Real.pi / 4 ∧
    segVisibleCore Real.pi (Real.pi - Real.pi / 8) (Real.pi + Real.pi / 8) = none := by
  have hpi := Real.pi_pos
  refine ⟨by ring, ?_, ?_, ?_⟩
  · have h : Real.pi + Real.pi / 8 - Real.pi = Real.pi / 8 := by ring
    rw [h, abs_of_nonneg (by linarith)]
    linarith
  · have h : Real.pi - Real.pi / 8 - Real.pi = -(Real.pi / 8) := by ring
    rw [h, abs_neg, abs_of_nonneg (by linarith)]
    linarith
  · simp only [segVisibleCore]
    rw [if_pos (by linarith : Real.pi - Real.pi / 8 < Real.pi + Real.pi / 8)]

/-- C8 (amended): a segment directly centered on the viewer is
visible provided its first endpoint bearing is the counterclockwise one
and the span does not wrap past 0/2π (bearings θ+s and θ-s with
0 ≤ s ≤ π/4 and both inside [0, 2π)); and a segment both of whose
endpoint bearings lie at circular distance greater than π/2 from the
viewer angle is never reported visible.  The f32 angle arithmetic is
idealized as exact real arithmetic. -/
theorem C8_visibility_amended :
    (∀ (theta s : ℝ), 0 ≤ s → s ≤ Real.pi / 4 → 0 ≤ theta - s → theta + s < 2 * Real.pi →
      segVisibleCore theta (theta + s) (theta - s) = some (theta + s, theta - s))
    ∧ (∀ (theta a1 a2 : ℝ),
        0 ≤ theta → theta < 2 * Real.pi →
        0 ≤ a1 → a1 < 2 * Real.pi → 0 ≤ a2 → a2 < 2 * Real.pi →
        Real.pi / 2 < circDist a1 theta → Real.pi / 2 < circDist a2 theta →
        segVisibleCore theta a1 a2 = none) := by
  constructor
  · intro theta s hs0 hs4 hts hth2
    have hpi := Real.pi_pos
    simp only [segVisibleCore, segVisibleTail]
    rw [if_neg (by linarith : ¬ theta + s < theta - s)]
    rw [if_neg (by linarith : ¬ Real.pi ≤ theta + s - (theta - s))]
    rw [if_neg (by linarith : ¬ theta + s - theta + Real.pi / 4 < 0)]
    rw [if_neg (by linarith : ¬ Real.pi * 2 < theta + s - theta + Real.pi / 4)]
    rw [if_neg (by linarith : ¬ Real.pi / 2 < theta + s - theta + Real.pi / 4)]
    rcases eq_or_lt_of_le hs0 with hs | hs
    · rw [← hs]
      rw [if_neg (by linarith : ¬ theta - 0 - theta < 0)]
      rw [if_neg (by linarith : ¬ Real.pi * 2 < theta - 0 - theta)]
      rw [if_neg (by linarith : ¬ Real.pi / 4 - (theta - 0 - theta) < 0)]
      rw [if_neg (by linarith : ¬ Real.pi * 2 < Real.pi / 4 - (theta - 0 - theta))]
      rw [if_neg (by linarith : ¬ Real.pi / 2 < Real.pi / 4 - (theta - 0 - theta))]
    · rw [if_pos (by linarith : theta - s - theta < 0)]
      rw [if_pos (by linarith : Real.pi / 4 - (theta - s - theta + Real.pi * 2) < 0)]
      rw [if_neg (by linarith :
            ¬ Real.pi / 2 < Real.pi / 4 - (theta - s - theta + Real.pi * 2) + Real.pi * 2)]
  · intro theta a1 a2 hth0 hth2 ha10 ha12 ha20 ha22 hd1 hd2
    have hpi := Real.pi_pos
    unfold circDist at hd1 hd2
    rw [lt_min_iff] at hd1 hd2
    obtain ⟨hd1a, hd1b⟩ := hd1
    obtain ⟨hd2a, hd2b⟩ := hd2
    simp only [segVisibleCore]
    by_cases hord : a1 < a2
    · rw [if_pos hord]
    · rw [if_neg hord]
      by_cases hdiff : Real.pi ≤ a1 - a2
      · rw [if_pos hdiff]
      · rw [if_neg hdiff]
        push_neg at hord hdiff
        rcases abs_cases (a1 - theta) with ⟨he1, hp1⟩ | ⟨he1, hp1⟩ <;>
          rw [he1] at hd1a hd1b
        · rw [if_neg (by linarith : ¬ a1 - theta + Real.pi / 4 < 0)]
          rw [if_neg (by linarith : ¬ Real.pi * 2 < a1 - theta + Real.pi / 4)]
          rw [if_pos (by linarith : Real.pi / 2 < a1 - theta + Real.pi / 4)]
          have hrej : a1 - a2 ≤ a1 - theta + Real.pi / 4 - Real.pi / 2 := by
            by_contra hc
            push_neg at hc
            rcases abs_cases (a2 - theta) with ⟨he2, hp2⟩ | ⟨he2, hp2⟩ <;>
              rw [he2] at hd2a hd2b <;> linarith
          rw [if_pos hrej]
        · rw [if_pos (by linarith : a1 - theta + Real.pi / 4 < 0)]
          rw [if_pos (by linarith : Real.pi / 2 < a1 - theta + Real.pi / 4 + Real.pi * 2)]
          have hrej : a1 - a2 ≤ a1 - theta + Real.pi / 4 + Real.pi * 2 - Real.pi / 2 := by
            by_contra hc
            push_neg at hc
            rcases abs_cases (a2 - theta) with ⟨he2, hp2⟩ | ⟨he2, hp2⟩ <;>
              rw [he2] at hd2a hd2b <;> linarith
          rw [if_pos hrej]

/-- Witness for C8 at concrete viewer poses and bearings. -/
theorem C8_visibility_amended_witness :
    segVisibleCore Real.pi (Real.pi + Real.pi / 8) (Real.pi - Real.pi / 8) =
      some (Real.pi + Real.pi / 8, Real.pi - Real.pi / 8) ∧
    segVisibleCore Real.pi (2 * Real.pi - Real.pi / 8) (Real.pi / 8) = none := by
  have hpi := Real.pi_pos
  constructor
  · exact C8_visibility_amended.1 Real.pi (Real.pi / 8) (by linarith) (by linarith) (by linarith) (by linarith)
  · refine C8_visibility_amended.2 Real.pi (2 * Real.pi - Real.pi / 8) (Real.pi / 8)
      (by linarith) (by linarith) (by linarith) (by linarith) (by linarith) (by linarith) ?_ ?_
    · unfold circDist
      rw [abs_of_nonneg (by linarith : (0:ℝ) ≤ 2 * Real.pi - Real.pi / 8 - Real.pi)]
      rw [lt_min_iff]
      constructor <;> linarith
    · unfold circDist
      rw [abs_of_nonpos (by linarith : Real.pi / 8 - Real.pi ≤ 0)]
      rw [lt_min_iff]
      constructor <;> linarith

/-- Witness for C2 at concrete nodes and points. -/
theorem C2_is_point_behind_axis_aligned_witness :
    (isPointBehind 0 0 0 1 0 5 = true ↔ ((0:Int) ≤ 0 ∧ (0:Int) < 1) ∨ ((0:Int) < 0 ∧ (1:Int) < 0))
    ∧ isPointBehind 100 5 0 10 99 7 = true
    ∧ isPointBehind 100 5 0 10 101 7 = false :=
  ⟨(C2_is_point_behind_axis_aligned 0 0 0 1 0 5).1 rfl, (C2_is_point_behind_axis_aligned 0 0 0 1 0 5).2.2.1 5 7, (C2_is_point_behind_axis_aligned 0 0 0 1 0 5).2.2.2 5 7⟩

/-- Witness for C3 at a concrete node and point. -/
theorem C3_cross_product_amended_witness :
    (isPointBehind 0 0 3 4 10 20 = true ↔ (4:Int) * wrap16 (10 - 0) < 3 * wrap16 (20 - 0))
    ∧ (isI16 (10 - 0) → isI16 (20 - 0) →
       (isPointBehind 0 0 3 4 10 20 = true ↔ (0:Int) < 3 * (20 - 0) - 4 * (10 - 0)))
    ∧ (-(2 ^ 31) ≤ (3:Int) * wrap16 (20 - 0) ∧ (3:Int) * wrap16 (20 - 0) < 2 ^ 31
       ∧ -(2 ^ 31) ≤ (4:Int) * wrap16 (10 - 0) ∧ (4:Int) * wrap16 (10 - 0) < 2 ^ 31) :=
  C3_cross_product_amended 0 0 3 4 10 20 (by decide) (by decide) (by decide) (by decide) (by decide)
    (by decide) (by decide) (by decide)

/-- Witness for C4 at the three documented example tags. -/
theorem C4_child_tag_decoder_witness :
    (Nat.testBit 5 15 = false → getChild 5 = ChildIdx.node (Int.ofNat 5))
    ∧ (Nat.testBit 32773 15 = true → (32773 : Nat) ≠ 65535 →
       getChild 32773 = ChildIdx.subsector (Int.ofNat (32773 - 32768)))
    ∧ getChild 65535 = ChildIdx.subsector 0 :=
  ⟨(C4_child_tag_decoder.1 5 (by decide)).1, (C4_child_tag_decoder.1 32773 (by decide)).2.1, C4_child_tag_decoder.2.2.2⟩

/-- Witness for C5 on a one-element sidedef array. -/
theorem C5_sidedef_resolution_amended_witness :
    resolveSidedef ([7] : List Nat) (i16AsUsize 65535) = Assembled.ok none ∧
    resolveSidedef ([7] : List Nat) (i16AsUsize 3) = Assembled.fatal ∧
    resolveSidedef ([7] : List Nat) (i16AsUsize 0) = Assembled.ok (some 7) :=
  ⟨(C5_sidedef_resolution_amended 65535 [7] (by decide)).1 (by decide),
   (C5_sidedef_resolution_amended 3 [7] (by decide)).2.1 (by decide) (by decide),
   (C5_sidedef_resolution_amended 0 [7] (by decide)).2.2 (by decide) (by decide)⟩
